import Mathlib

/-!
Verification development for the claude-compression-proxy interceptor
(`src/interceptor.js`).  The JavaScript source is shallowly embedded:

* JSON values (the parsed request payloads) become the inductive `Json`;
  numbers are modelled as integers, which covers every value the claims
  exercise (token counts and thresholds).
* The outcome of the single outbound call to the compression service is an
  explicit `CompressOutcome` argument (the oracle): `failure` stands for a
  transport error, a timeout, or an unparseable response body, and
  `success r` for a body that parsed to JSON, with each field of interest
  either present (`some`) or absent (`none`).
* JavaScript exceptions that `processPayload` catches (property access on a
  `null` element of `messages` or of a content array throws a `TypeError`)
  are modelled with `Except Unit`; the catch clause corresponds to mapping
  `.error` to the original-body fallback.
* The mutable `stats` object becomes explicit state passing.
* Logging, the listening socket, environment parsing and the aggressiveness
  setting (used only inside the outbound compression request body, which the
  oracle abstracts) are outside the modelled core.
-/

/-- JSON value as produced by `JSON.parse`.  Object fields keep their order;
a parsed object never repeats a key.  Numbers are modelled as integers. -/
inductive Json where
  | null : Json
  | bool : Bool → Json
  | num : Int → Json
  | str : String → Json
  | arr : List Json → Json
  | obj : List (String × Json) → Json

mutual

/-- Structural equality test for `Json`. -/
def Json.beq : Json → Json → Bool
  | .null, .null => true
  | .bool a, .bool b => a == b
  | .num a, .num b => a == b
  | .str a, .str b => a == b
  | .arr a, .arr b => Json.beqList a b
  | .obj a, .obj b => Json.beqFields a b
  | _, _ => false

/-- Structural equality test for lists of `Json`. -/
def Json.beqList : List Json → List Json → Bool
  | u :: us, w :: ws => Json.beq u w && Json.beqList us ws
  | [], [] => true
  | _, _ => false

/-- Structural equality test for field lists. -/
def Json.beqFields : List (String × Json) → List (String × Json) → Bool
  | (ka, va) :: fs, (kb, vb) :: gs =>
      ka == kb && Json.beq va vb && Json.beqFields fs gs
  | [], [] => true
  | _, _ => false

end

mutual

def Json.beq_iff_eq : ∀ a b : Json, Json.beq a b = true ↔ a = b
  | .null, .null => by simp [Json.beq]
  | .bool _, .bool _ => by simp [Json.beq]
  | .num _, .num _ => by simp [Json.beq]
  | .str _, .str _ => by simp [Json.beq]
  | .arr x, .arr y => by simp [Json.beq, Json.beqList_iff_eq x y]
  | .obj x, .obj y => by simp [Json.beq, Json.beqFields_iff_eq x y]
  | .null, .bool _ | .null, .num _ | .null, .str _ | .null, .arr _ | .null, .obj _
  | .bool _, .null | .bool _, .num _ | .bool _, .str _ | .bool _, .arr _ | .bool _, .obj _
  | .num _, .null | .num _, .bool _ | .num _, .str _ | .num _, .arr _ | .num _, .obj _
  | .str _, .null | .str _, .bool _ | .str _, .num _ | .str _, .arr _ | .str _, .obj _
  | .arr _, .null | .arr _, .bool _ | .arr _, .num _ | .arr _, .str _ | .arr _, .obj _
  | .obj _, .null | .obj _, .bool _ | .obj _, .num _ | .obj _, .str _ | .obj _, .arr _ => by
      simp [Json.beq]

def Json.beqList_iff_eq : ∀ a b : List Json, Json.beqList a b = true ↔ a = b
  | u :: us, w :: ws => by
      simp [Json.beqList, Json.beq_iff_eq u w, Json.beqList_iff_eq us ws]
  | [], [] => by simp [Json.beqList]
  | [], _ :: _ | _ :: _, [] => by simp [Json.beqList]

def Json.beqFields_iff_eq : ∀ a b : List (String × Json), Json.beqFields a b = true ↔ a = b
  | (ka, va) :: fs, (kb, vb) :: gs => by
      simp [Json.beqFields, Json.beq_iff_eq va vb, Json.beqFields_iff_eq fs gs, and_assoc]
  | [], [] => by simp [Json.beqFields]
  | [], _ :: _ | _ :: _, [] => by simp [Json.beqFields]

end

instance : DecidableEq Json := fun a b =>
  decidable_of_iff (Json.beq a b = true) (Json.beq_iff_eq a b)

/-- Property lookup `j.k` on a parsed JSON value: yields the field's value on
an object that has the field, and `none` (JavaScript `undefined`) otherwise.
(Lookup on `Json.null` in the source throws; callers below handle that case
explicitly before using `getField`.)  `findField` is first-match lookup on
the field list. -/
def findField : List (String × Json) → String → Option Json
  | [], _ => none
  | p :: fs, k => if p.1 = k then some p.2 else findField fs k

/-- Does a field list carry the key? -/
def hasField : List (String × Json) → String → Bool
  | [], _ => false
  | p :: fs, k => p.1 = k || hasField fs k

/-- Replace the value of every field with the key, in place. -/
def replaceField (k : String) (v : Json) : List (String × Json) → List (String × Json)
  | [] => []
  | p :: fs => (if p.1 = k then (k, v) else p) :: replaceField k v fs

def Json.getField : Json → String → Option Json
  | .obj fs, k => findField fs k
  | _, _ => none

/-- Property assignment `j.k = v` on an object: replaces the value of an
existing field in place (keeping its position), appends the field otherwise.
On non-objects it is the identity (the transformer only assigns to objects it
has already read a field from). -/
def Json.setField : Json → String → Json → Json
  | .obj fs, k, v =>
      .obj (if hasField fs k then replaceField k v fs else fs ++ [(k, v)])
  | j, _, _ => j

/-- Lowercase hex digit of `n % 16`, as used by `JSON.stringify` escapes. -/
def hexDigit (n : Nat) : String :=
  match n % 16 with
  | 0 => "0" | 1 => "1" | 2 => "2" | 3 => "3" | 4 => "4" | 5 => "5" | 6 => "6" | 7 => "7"
  | 8 => "8" | 9 => "9" | 10 => "a" | 11 => "b" | 12 => "c" | 13 => "d" | 14 => "e" | _ => "f"

/-- String-literal escaping performed by `JSON.stringify`: quote, backslash
and control characters are escaped, everything else is copied through. -/
def escapeJsonChar (c : Char) : String :=
  if c = '"' then "\\\""
  else if c = '\\' then "\\\\"
  else if c = Char.ofNat 8 then "\\b"
  else if c = Char.ofNat 9 then "\\t"
  else if c = Char.ofNat 10 then "\\n"
  else if c = Char.ofNat 12 then "\\f"
  else if c = Char.ofNat 13 then "\\r"
  else if c.toNat < 32 then "\\u00" ++ hexDigit (c.toNat / 16) ++ hexDigit c.toNat
  else String.singleton c

/-- Escape a whole string and wrap it in quotes, as `JSON.stringify` does. -/
def quoteJsonString (s : String) : String :=
  "\"" ++ String.join (s.toList.map escapeJsonChar) ++ "\""

mutual

/-- Embedding of `JSON.stringify` on parsed values: canonical spacing (no
whitespace), fields in stored order. -/
def Json.stringify : Json → String
  | .null => "null"
  | .bool true => "true"
  | .bool false => "false"
  | .num n => toString n
  | .str s => quoteJsonString s
  | .arr l => "[" ++ Json.stringifyList l ++ "]"
  | .obj fs => "\x7b" ++ Json.stringifyFields fs ++ "\x7d"

/-- Comma-separated rendering of array elements. -/
def Json.stringifyList : List Json → String
  | [] => ""
  | [x] => Json.stringify x
  | x :: xs => Json.stringify x ++ "," ++ Json.stringifyList xs

/-- Comma-separated rendering of object fields. -/
def Json.stringifyFields : List (String × Json) → String
  | [] => ""
  | [(k, v)] => quoteJsonString k ++ ":" ++ Json.stringify v
  | (k, v) :: fs => quoteJsonString k ++ ":" ++ Json.stringify v ++ "," ++ Json.stringifyFields fs

end

/-- Configuration relevant to the modelled core (`config` in the source).
`ttcKey` is `process.env.TTC_KEY` (`none` when unset), `minTextLength`
defaults to 150, `anthropicHost` is `"api.anthropic.com"`. -/
structure Config where
  ttcKey : Option String
  minTextLength : Nat
  anthropicHost : String
deriving DecidableEq

/-- JavaScript truthiness of a possibly-undefined string value (`undefined`
and the empty string are falsy). -/
def jsTruthyStr : Option String → Bool
  | none => false
  | some s => s ≠ ""

/-- Result shape of `compressText`: `{ text, saved, original }`. -/
structure CompressionResult where
  text : String
  saved : Int
  original : Int
deriving DecidableEq

/-- Parsed JSON body of a compression-service response, restricted to the
fields the source reads.  `output` is `none` when the field is absent (its
truthiness check also rejects the empty string); each token count is `none`
when the field is absent. -/
structure CompressResponse where
  output : Option String
  output_tokens : Option Int
  original_input_tokens : Option Int
deriving DecidableEq

/-- Outcome of the outbound call to the compression service: `failure`
covers a transport error, the 30s timeout, and a response body that
`JSON.parse` rejects; `success r` is a response body that parsed. -/
inductive CompressOutcome where
  | failure : CompressOutcome
  | success : CompressResponse → CompressOutcome
deriving DecidableEq

/-- Return value of the embedded `compressText` together with an effect
record: `networkCall` is `true` exactly when the source reaches
`https.request` (i.e. the guard at the top of `compressText` did not return
the fallback early). -/
structure CompressCall where
  result : CompressionResult
  networkCall : Bool
deriving DecidableEq

/-- Embedding of `compressText(text)` from `src/interceptor.js` lines 55-116.
Skip guard: `!config.ttcKey || !text || text.length < config.minTextLength`
returns the fallback with no network call.  Otherwise the call's outcome
`net` decides: on `failure`, the fallback; on a parsed response, the output
is accepted iff `json.output` is truthy and
`json.output_tokens < json.original_input_tokens` (a comparison with an
absent operand is false), with `saved = original_input_tokens -
output_tokens` and `original = original_input_tokens`. -/
def compressText (cfg : Config) (net : CompressOutcome) (text : String) : CompressCall :=
  if jsTruthyStr cfg.ttcKey = false ∨ text = "" ∨ text.length < cfg.minTextLength then
    ⟨⟨text, 0, 0⟩, false⟩
  else
    match net with
    | .failure => ⟨⟨text, 0, 0⟩, true⟩
    | .success r =>
        match r.output, r.output_tokens, r.original_input_tokens with
        | some o, some a, some b =>
            if o ≠ "" ∧ a < b then ⟨⟨o, b - a, b⟩, true⟩ else ⟨⟨text, 0, 0⟩, true⟩
        | _, _, _ => ⟨⟨text, 0, 0⟩, true⟩

/-- Oracle for the compression service during one request: the outcome of
the outbound call as a function of the text sent. -/
def CompressOracle : Type := String → CompressOutcome

/-- Shape shared by the two `for..of` loops of `processPayload`: apply `f`
to each element in order, accumulating the two integer totals; a thrown
exception (`.error`) aborts the whole traversal, as the single `try` block
of `processPayload` does. -/
def transformList (f : Json → Except Unit (Json × Int × Int)) :
    List Json → Except Unit (List Json × Int × Int)
  | [] => .ok ([], 0, 0)
  | m :: rest =>
      match f m with
      | .error e => .error e
      | .ok (m', s, o) =>
          match transformList f rest with
          | .error e => .error e
          | .ok (rest', s2, o2) => .ok (m' :: rest', s + s2, o + o2)

/-- Embedding of the body of the block loop (`src/interceptor.js` lines
137-144).  A `null` block throws on the `block.type` access (`.error`, caught
at `processPayload`).  A block is compressed when `block.type === "text"`
and its `text` field is a string longer than the threshold (which subsumes
the `block.text` truthiness check); the compressed text replaces `block.text`
in place.  Every other block is returned unchanged with zero totals.
Non-string `text` values are modelled as not compressible (a valid chat
payload carries only strings there). -/
def transformBlock (cfg : Config) (oracle : CompressOracle) (b : Json) :
    Except Unit (Json × Int × Int) :=
  if b = .null then .error ()
  else
      if b.getField "type" = some (.str "text") then
        match b.getField "text" with
        | some (.str s) =>
            if s.length > cfg.minTextLength then
              let r := (compressText cfg (oracle s) s).result
              .ok (b.setField "text" (.str r.text), r.saved, r.original)
            else .ok (b, 0, 0)
        | _ => .ok (b, 0, 0)
      else .ok (b, 0, 0)

/-- Embedding of the body of the message loop (`src/interceptor.js` lines
129-147).  A `null` message throws on the `msg.role` access.  A message is
examined only when its role is exactly `"user"` or `"assistant"`; string
content longer than the threshold is compressed and assigned back, array
content has each block passed through `transformBlock`, and any other
content shape is left untouched. -/
def transformMessage (cfg : Config) (oracle : CompressOracle) (m : Json) :
    Except Unit (Json × Int × Int) :=
  if m = .null then .error ()
  else
      if m.getField "role" = some (.str "user") ∨ m.getField "role" = some (.str "assistant") then
        match m.getField "content" with
        | some (.str s) =>
            if s.length > cfg.minTextLength then
              let r := (compressText cfg (oracle s) s).result
              .ok (m.setField "content" (.str r.text), r.saved, r.original)
            else .ok (m, 0, 0)
        | some (.arr blocks) =>
            match transformList (transformBlock cfg oracle) blocks with
            | .ok (blocks', s, o) => .ok (m.setField "content" (.arr blocks'), s, o)
            | .error e => .error e
        | _ => .ok (m, 0, 0)
      else .ok (m, 0, 0)

/-- Result shape of `processPayload`: `{ body, totalSaved, totalOriginal }`. -/
structure ProcessResult where
  body : String
  totalSaved : Int
  totalOriginal : Int
deriving DecidableEq

/-- Embedding of `processPayload(bodyStr)` from `src/interceptor.js` lines
119-158.  `parsed` is the outcome of `JSON.parse(bodyStr)` (`none` when it
throws).  When parsing throws, when `body.messages` is absent or falsy
(`null`, `false`, `0`, `""`), or when iterating throws (a truthy
non-iterable `messages` value, or a `null` message or block), the catch
clause returns the original string with zero totals.  A nonempty string
`messages` iterates over its characters, which are all skipped (a character
is a string, whose `role` is undefined), so the body is re-encoded
unchanged.  An array `messages` is transformed and the whole payload
re-encoded. -/
def processPayload (cfg : Config) (oracle : CompressOracle) (bodyStr : String)
    (parsed : Option Json) : ProcessResult :=
  match parsed with
  | none => ⟨bodyStr, 0, 0⟩
  | some j =>
      match j.getField "messages" with
      | some (.arr ms) =>
          match transformList (transformMessage cfg oracle) ms with
          | .ok (ms', s, o) => ⟨(j.setField "messages" (.arr ms')).stringify, s, o⟩
          | .error _ => ⟨bodyStr, 0, 0⟩
      | some (.str s) => if s = "" then ⟨bodyStr, 0, 0⟩ else ⟨j.stringify, 0, 0⟩
      | _ => ⟨bodyStr, 0, 0⟩

/-- Lifetime counters (`stats` in the source); `startTime` is only used for
logging and is not modelled. -/
structure Stats where
  requests : Nat
  compressed : Nat
  tokensSaved : Int
  originalTokens : Int
deriving DecidableEq

/-- Inbound request as `handleRequest` sees it: `body` is the concatenated
chunks decoded as UTF-8, `none` when no chunk arrived.  Header keys are
lowercased and unique, as node's `req.headers` provides them. -/
structure Request where
  method : String
  url : String
  headers : List (String × String)
  body : Option String
deriving DecidableEq

/-- Invocation of `forwardToAnthropic` produced by `handleRequest`: the
method, path, inbound headers and (possibly rewritten) body passed on. -/
structure ForwardCall where
  method : String
  path : String
  headers : List (String × String)
  body : Option String
deriving DecidableEq

/-- Does the second character list start with the first? -/
def listStartsWith : List Char → List Char → Bool
  | [], _ => true
  | _ :: _, [] => false
  | a :: as, b :: bs => a == b && listStartsWith as bs

/-- Does the pattern occur inside the list at any offset? -/
def listContains (pat : List Char) : List Char → Bool
  | [] => listStartsWith pat []
  | b :: bs => listStartsWith pat (b :: bs) || listContains pat bs

/-- Substring test, embedding JavaScript `String.prototype.includes`. -/
def strContains (s pat : String) : Bool := listContains pat.toList s.toList

/-- Eligibility test of `handleRequest` (`src/interceptor.js` line 206):
`urlPath.includes("/messages") && req.method === "POST"`. -/
def isMessagesEndpoint (req : Request) : Bool :=
  strContains req.url "/messages" && req.method == "POST"

/-- Embedding of `handleRequest(req, res)` from `src/interceptor.js` lines
202-230, up to the hand-off to `forwardToAnthropic`.  `parse` stands for
`JSON.parse` (the transformer receives its outcome on the body it is given).
The request counter is incremented first, unconditionally.  When the request
is eligible and the body is truthy, the body is replaced by the
transformer's output and the totals are accumulated, with the compressed
counter incremented exactly when `totalSaved > 0`. -/
def handleRequest (cfg : Config) (oracle : CompressOracle) (parse : String → Option Json)
    (st : Stats) (req : Request) : Stats × ForwardCall :=
  let st := { st with requests := st.requests + 1 }
  match req.body with
  | some s =>
      if isMessagesEndpoint req && s ≠ "" then
        let r := processPayload cfg oracle s (parse s)
        ({ st with
            tokensSaved := st.tokensSaved + r.totalSaved,
            originalTokens := st.originalTokens + r.totalOriginal,
            compressed := st.compressed + (if r.totalSaved > 0 then 1 else 0) },
         ⟨req.method, req.url, req.headers, some r.body⟩)
      else (st, ⟨req.method, req.url, req.headers, some s⟩)
  | none => (st, ⟨req.method, req.url, req.headers, none⟩)

/-- Header-map lookup (node header objects have unique lowercase keys). -/
def getHeader : List (String × String) → String → Option String
  | [], _ => none
  | p :: hs, k => if p.1 = k then some p.2 else getHeader hs k

/-- Does a header map carry the key? -/
def hasHeader : List (String × String) → String → Bool
  | [], _ => false
  | p :: hs, k => p.1 = k || hasHeader hs k

/-- Replace the value of every entry with the key, in place. -/
def replaceHeader (k v : String) : List (String × String) → List (String × String)
  | [] => []
  | p :: hs => (if p.1 = k then (k, v) else p) :: replaceHeader k v hs

/-- Header assignment `h[k] = v`: replaces an existing entry in place,
appends otherwise. -/
def setHeader (hs : List (String × String)) (k v : String) : List (String × String) :=
  if hasHeader hs k then replaceHeader k v hs else hs ++ [(k, v)]

/-- Header removal `delete h[k]`. -/
def delHeader : List (String × String) → String → List (String × String)
  | [], _ => []
  | p :: hs, k => if p.1 = k then delHeader hs k else p :: delHeader hs k

/-- Header rewriting of `forwardToAnthropic` (`src/interceptor.js` lines
162-173), in source order: copy, set `host` to the upstream hostname, set
`content-length` to the body's UTF-8 byte length when the body is truthy,
then delete the hop-by-hop headers `connection`, `keep-alive` and
`transfer-encoding`. -/
def buildForwardHeaders (cfg : Config) (hs : List (String × String)) (body : Option String) :
    List (String × String) :=
  let h := setHeader hs "host" cfg.anthropicHost
  let h := match body with
    | some b => if b ≠ "" then setHeader h "content-length" (toString b.utf8ByteSize) else h
    | none => h
  delHeader (delHeader (delHeader h "connection") "keep-alive") "transfer-encoding"

/-- Outcome of the outbound upstream connection: either a response (status,
headers, body stream) or a transport error carrying its message. -/
inductive UpstreamOutcome where
  | ok : Nat → List (String × String) → String → UpstreamOutcome
  | err : String → UpstreamOutcome
deriving DecidableEq

/-- What `forwardToAnthropic` writes back on the caller connection. -/
structure ClientResponse where
  status : Nat
  headers : List (String × String)
  body : String
deriving DecidableEq

/-- Outbound request issued by `forwardToAnthropic` (its `options` object
plus the body written). -/
structure OutboundRequest where
  hostname : String
  port : Nat
  path : String
  method : String
  headers : List (String × String)
  body : Option String
deriving DecidableEq

/-- Embedding of `forwardToAnthropic(method, urlPath, headers, body,
clientRes)` from `src/interceptor.js` lines 161-199.  The outbound request
goes to the upstream host on port 443 with the rewritten headers.  On an
upstream response, its status, headers and body are relayed to the caller;
on a transport error, the caller receives status 502 with the diagnostic
JSON body `{"error":"Bad Gateway","message":...}` and no headers. -/
def forwardToAnthropic (cfg : Config) (method urlPath : String)
    (headers : List (String × String)) (body : Option String) (up : UpstreamOutcome) :
    OutboundRequest × ClientResponse :=
  let outbound : OutboundRequest :=
    ⟨cfg.anthropicHost, 443, urlPath, method, buildForwardHeaders cfg headers body, body⟩
  match up with
  | .ok status hs b => (outbound, ⟨status, hs, b⟩)
  | .err m =>
      (outbound,
       ⟨502, [], (Json.obj [("error", .str "Bad Gateway"), ("message", .str m)]).stringify⟩)

/-- Configuration with a credential configured and the default threshold. -/
def cfgD : Config := ⟨some "k", 150, "api.anthropic.com"⟩

/-- Configuration with no API credential (`TTC_KEY` unset). -/
def cfgNoKey : Config := ⟨none, 150, "api.anthropic.com"⟩

/-- Concrete 500-character message content used in the scenario inputs. -/
def text500 : String := String.mk (List.replicate 500 'a')

/-- Compression-service response of Scenario B: `output_tokens` 80,
`original_input_tokens` 200. -/
def respB : CompressResponse := ⟨some "zip", some 80, some 200⟩

/-- Well-formed but adversarial response reporting a negative output-token
count. -/
def respNeg : CompressResponse := ⟨some "x", some (-1), some 0⟩

/-- Oracle that answers the Scenario B response on `text500` and fails on
anything else. -/
def oracleB : CompressOracle := fun s => if s = text500 then .success respB else .failure

/-- Scenario B message: one user message whose content is `text500`. -/
def msgB : Json := .obj [("role", .str "user"), ("content", .str text500)]

/-- Scenario B payload, with a field the transformer does not know. -/
def payloadB : Json := .obj [("model", .str "claude"), ("messages", .arr [msgB])]

/-- Message of an unrecognized role, used by the frame-condition witnesses. -/
def msgSystem : Json := .obj [("role", .str "system"), ("content", .str text500)]

/-- Message whose content is a short string, used by the idempotence
witness. -/
def msgShort : Json := .obj [("role", .str "user"), ("content", .str "zip")]

/-- Content block of a non-text type, used by the frame-condition
witnesses. -/
def blockTool : Json := .obj [("type", .str "tool_use"), ("input", .str "data")]

/-- Inbound eligible request with body `"RAW"`. -/
def reqB : Request :=
  ⟨"POST", "/v1/messages", [("host", "localhost"), ("x-api-key", "secret")], some "RAW"⟩

/-- Decoder used by the front-end witnesses: `"RAW"` parses to `payloadB`. -/
def parseB : String → Option Json := fun s => if s = "RAW" then some payloadB else none

/-- Stats value used by the front-end witnesses. -/
def stW : Stats := ⟨5, 2, 10, 100⟩



/-- Payload whose message list starts with `null`, which makes the message
loop throw; used by the passthrough witnesses. -/
def payloadNull : Json := .obj [("messages", .arr [.null, msgB])]


/-- User message with array content: a tool block and a short text block;
used by the round-trip witness. -/
def msgBlocks : Json :=
  .obj [("role", .str "user"),
        ("content", .arr [blockTool, .obj [("type", .str "text"), ("text", .str "hi")]])]

/-- Payload with fields unknown to the transformer, an unrecognized-role
message and a block-content message; used by the round-trip witness. -/
def payloadC4 : Json :=
  .obj [("model", .str "claude"),
        ("messages", .arr [msgSystem, msgBlocks]),
        ("max_tokens", .num 1024)]

theorem getHeader_delHeader (hs : List (String × String)) (k k' : String) :
    getHeader (delHeader hs k') k = if k = k' then none else getHeader hs k := by
  induction hs with
  | nil => by_cases h : k = k' <;> simp [getHeader, delHeader, h]
  | cons p t ih =>
      by_cases hp : p.1 = k' <;> by_cases hpk : p.1 = k <;> by_cases h : k = k' <;>
        simp_all [getHeader, delHeader]

theorem hasHeader_false_getHeader {hs : List (String × String)} {k : String}
    (h : hasHeader hs k = false) : getHeader hs k = none := by
  induction hs with
  | nil => simp [getHeader]
  | cons p t ih =>
      simp only [hasHeader, Bool.or_eq_false_iff, decide_eq_false_iff_not] at h
      simp [getHeader, h.1, ih h.2]

theorem hasHeader_false_replaceHeader {hs : List (String × String)} {k : String} (v : String)
    (h : hasHeader hs k = false) : replaceHeader k v hs = hs := by
  induction hs with
  | nil => simp [replaceHeader]
  | cons p t ih =>
      simp only [hasHeader, Bool.or_eq_false_iff, decide_eq_false_iff_not] at h
      simp [replaceHeader, h.1, ih h.2]

theorem getHeader_replaceHeader {hs : List (String × String)} {k' : String} (k v : String)
    (h : hasHeader hs k' = true) :
    getHeader (replaceHeader k' v hs) k = if k = k' then some v else getHeader hs k := by
  induction hs with
  | nil => simp [hasHeader] at h
  | cons p t ih =>
      by_cases hp : p.1 = k'
      · have hrw : replaceHeader k' v (p :: t) = (k', v) :: replaceHeader k' v t := by
          simp [replaceHeader, hp]
        rw [hrw]
        by_cases hk : k = k'
        · subst hk
          simp [getHeader]
        · have hk2 : ¬ k' = k := fun hh => hk hh.symm
          simp only [getHeader, if_neg hk2, if_neg hk]
          by_cases hpk : p.1 = k
          · exact absurd (hpk.symm.trans hp) hk
          · rw [if_neg hpk]
            by_cases ht : hasHeader t k' = true
            · rw [ih ht, if_neg hk]
            · rw [hasHeader_false_replaceHeader v (Bool.eq_false_iff.mpr ht)]
      · have ht : hasHeader t k' = true := by simpa [hasHeader, hp] using h
        have hrw : replaceHeader k' v (p :: t) = p :: replaceHeader k' v t := by
          simp [replaceHeader, hp]
        rw [hrw]
        simp only [getHeader]
        by_cases hpk : p.1 = k
        · have hk : ¬ k = k' := fun hh => hp (hpk.trans hh)
          rw [if_pos hpk, if_neg hk, if_pos hpk]
        · rw [if_neg hpk, if_neg hpk, ih ht]

theorem getHeader_append_single {hs : List (String × String)} {k' : String} (k v : String)
    (h : hasHeader hs k' = false) :
    getHeader (hs ++ [(k', v)]) k = if k = k' then some v else getHeader hs k := by
  induction hs with
  | nil =>
      by_cases hk : k = k'
      · subst hk; simp [getHeader]
      · have hk2 : ¬ k' = k := fun hh => hk hh.symm
        simp [getHeader, hk, hk2]
  | cons p t ih =>
      simp only [hasHeader, Bool.or_eq_false_iff, decide_eq_false_iff_not] at h
      simp only [List.cons_append, getHeader]
      by_cases hpk : p.1 = k
      · have hk : ¬ k = k' := fun hh => h.1 (hpk.trans hh)
        rw [if_pos hpk, if_neg hk, if_pos hpk]
      · rw [if_neg hpk, if_neg hpk]
        simpa [List.append_eq] using ih h.2

theorem getHeader_setHeader (hs : List (String × String)) (k k' v : String) :
    getHeader (setHeader hs k' v) k = if k = k' then some v else getHeader hs k := by
  by_cases hh : hasHeader hs k' = true
  · simp [setHeader, hh, getHeader_replaceHeader k v hh]
  · simp [setHeader, Bool.eq_false_iff.mpr hh,
      getHeader_append_single k v (Bool.eq_false_iff.mpr hh)]

theorem hasField_false_findField {fs : List (String × Json)} {k : String}
    (h : hasField fs k = false) : findField fs k = none := by
  induction fs with
  | nil => simp [findField]
  | cons p t ih =>
      simp only [hasField, Bool.or_eq_false_iff, decide_eq_false_iff_not] at h
      simp [findField, h.1, ih h.2]

theorem hasField_false_replaceField {fs : List (String × Json)} {k : String} (v : Json)
    (h : hasField fs k = false) : replaceField k v fs = fs := by
  induction fs with
  | nil => simp [replaceField]
  | cons p t ih =>
      simp only [hasField, Bool.or_eq_false_iff, decide_eq_false_iff_not] at h
      simp [replaceField, h.1, ih h.2]

theorem findField_some_hasField {fs : List (String × Json)} {k : String} {w : Json}
    (h : findField fs k = some w) : hasField fs k = true := by
  induction fs with
  | nil => simp [findField] at h
  | cons p t ih =>
      by_cases hp : p.1 = k
      · simp [hasField, hp]
      · simp only [findField, if_neg hp] at h
        simp [hasField, ih h]

theorem findField_replaceField {fs : List (String × Json)} {k' : String} (k : String) (v : Json)
    (h : hasField fs k' = true) :
    findField (replaceField k' v fs) k = if k = k' then some v else findField fs k := by
  induction fs with
  | nil => simp [hasField] at h
  | cons p t ih =>
      by_cases hp : p.1 = k'
      · have hrw : replaceField k' v (p :: t) = (k', v) :: replaceField k' v t := by
          simp [replaceField, hp]
        rw [hrw]
        by_cases hk : k = k'
        · subst hk
          simp [findField]
        · have hk2 : ¬ k' = k := fun hh => hk hh.symm
          simp only [findField, if_neg hk2, if_neg hk]
          by_cases hpk : p.1 = k
          · exact absurd (hpk.symm.trans hp) hk
          · rw [if_neg hpk]
            by_cases ht : hasField t k' = true
            · rw [ih ht, if_neg hk]
            · rw [hasField_false_replaceField v (Bool.eq_false_iff.mpr ht)]
      · have ht : hasField t k' = true := by simpa [hasField, hp] using h
        have hrw : replaceField k' v (p :: t) = p :: replaceField k' v t := by
          simp [replaceField, hp]
        rw [hrw]
        simp only [findField]
        by_cases hpk : p.1 = k
        · have hk : ¬ k = k' := fun hh => hp (hpk.trans hh)
          rw [if_pos hpk, if_neg hk, if_pos hpk]
        · rw [if_neg hpk, if_neg hpk, ih ht]

theorem findField_append_single {fs : List (String × Json)} {k' : String} (k : String) (v : Json)
    (h : hasField fs k' = false) :
    findField (fs ++ [(k', v)]) k = if k = k' then some v else findField fs k := by
  induction fs with
  | nil =>
      by_cases hk : k = k'
      · subst hk; simp [findField]
      · have hk2 : ¬ k' = k := fun hh => hk hh.symm
        simp [findField, hk, hk2]
  | cons p t ih =>
      simp only [hasField, Bool.or_eq_false_iff, decide_eq_false_iff_not] at h
      simp only [List.cons_append, findField]
      by_cases hpk : p.1 = k
      · have hk : ¬ k = k' := fun hh => h.1 (hpk.trans hh)
        rw [if_pos hpk, if_neg hk, if_pos hpk]
      · rw [if_neg hpk, if_neg hpk]
        simpa [List.append_eq] using ih h.2

theorem getField_setField_self {j : Json} {k : String} {w : Json} (v : Json)
    (h : j.getField k = some w) : (j.setField k v).getField k = some v := by
  cases j with
  | obj fs =>
      have hhas : hasField fs k = true := findField_some_hasField h
      simp [Json.setField, Json.getField, hhas, findField_replaceField k v hhas]
  | null => simp [Json.getField] at h
  | bool b => simp [Json.getField] at h
  | num n => simp [Json.getField] at h
  | str s => simp [Json.getField] at h
  | arr l => simp [Json.getField] at h

theorem getField_setField_ne {k k' : String} (j v : Json) (h : ¬ k' = k) :
    (j.setField k v).getField k' = j.getField k' := by
  cases j with
  | obj fs =>
      by_cases hhas : hasField fs k = true
      · simp [Json.setField, Json.getField, hhas, findField_replaceField k' v hhas, h]
      · simp [Json.setField, Json.getField, Bool.eq_false_iff.mpr hhas,
          findField_append_single k' v (Bool.eq_false_iff.mpr hhas), h]
  | null => simp [Json.setField, Json.getField]
  | bool b => simp [Json.setField, Json.getField]
  | num n => simp [Json.setField, Json.getField]
  | str s => simp [Json.setField, Json.getField]
  | arr l => simp [Json.setField, Json.getField]

theorem transformList_ok_length {f : Json → Except Unit (Json × Int × Int)}
    {ms ms' : List Json} {s o : Int} (h : transformList f ms = .ok (ms', s, o)) :
    ms'.length = ms.length := by
  induction ms generalizing ms' s o with
  | nil =>
      simp only [transformList, Except.ok.injEq, Prod.mk.injEq] at h
      simp [← h.1]
  | cons hd tl ih =>
      cases hf : f hd with
      | error e =>
          simp only [transformList, hf] at h
          exact Except.noConfusion h
      | ok r =>
          obtain ⟨m1, s1, o1⟩ := r
          cases hr : transformList f tl with
          | error e =>
              simp only [transformList, hf, hr] at h
              exact Except.noConfusion h
          | ok r2 =>
              obtain ⟨rest', s2, o2⟩ := r2
              simp only [transformList, hf, hr, Except.ok.injEq, Prod.mk.injEq] at h
              rw [← h.1]
              simp [ih hr]

theorem transformList_ok_get {f : Json → Except Unit (Json × Int × Int)}
    {ms ms' : List Json} {s o : Int} (h : transformList f ms = .ok (ms', s, o)) :
    ∀ i m, ms.get? i = some m →
      ∃ m' si oi, ms'.get? i = some m' ∧ f m = .ok (m', si, oi) := by
  induction ms generalizing ms' s o with
  | nil => intro i m hm; simp at hm
  | cons hd tl ih =>
      cases hf : f hd with
      | error e =>
          simp only [transformList, hf] at h
          exact Except.noConfusion h
      | ok r =>
          obtain ⟨m1, s1, o1⟩ := r
          cases hr : transformList f tl with
          | error e =>
              simp only [transformList, hf, hr] at h
              exact Except.noConfusion h
          | ok r2 =>
              obtain ⟨rest', s2, o2⟩ := r2
              simp only [transformList, hf, hr, Except.ok.injEq, Prod.mk.injEq] at h
              intro i m hm
              cases i with
              | zero =>
                  simp only [List.get?] at hm
                  cases hm
                  exact ⟨m1, s1, o1, by rw [← h.1]; rfl, hf⟩
              | succ n =>
                  simp only [List.get?] at hm
                  obtain ⟨m', si, oi, hget, hfm⟩ := ih hr n m hm
                  exact ⟨m', si, oi, by rw [← h.1]; simpa using hget, hfm⟩

theorem transformBlock_ok_ne_null {cfg : Config} {oracle : CompressOracle} {b : Json}
    {r : Json × Int × Int} (h : transformBlock cfg oracle b = .ok r) : ¬ b = .null := by
  intro hb
  subst hb
  simp [transformBlock] at h

theorem transformBlock_not_text {cfg : Config} {oracle : CompressOracle} {b : Json}
    (hb : ¬ b = .null) (ht : ¬ b.getField "type" = some (.str "text")) :
    transformBlock cfg oracle b = .ok (b, 0, 0) := by
  simp [transformBlock, hb, ht]

theorem transformBlock_text_not_str {cfg : Config} {oracle : CompressOracle} {b : Json}
    (hb : ¬ b = .null) (ht : ∀ s : String, ¬ b.getField "text" = some (.str s)) :
    transformBlock cfg oracle b = .ok (b, 0, 0) := by
  simp only [transformBlock, if_neg hb]
  split <;> rfl

theorem transformBlock_short {cfg : Config} {oracle : CompressOracle} {b : Json} {s : String}
    (hs : b.getField "text" = some (.str s)) (hlen : ¬ s.length > cfg.minTextLength) :
    transformBlock cfg oracle b = .ok (b, 0, 0) := by
  have hb : ¬ b = .null := by
    intro hb
    rw [hb] at hs
    simp [Json.getField] at hs
  simp only [transformBlock, if_neg hb]
  by_cases hty : b.getField "type" = some (.str "text")
  · rw [if_pos hty, hs]
    simp [hlen]
  · rw [if_neg hty]

theorem transformBlock_compress {cfg : Config} {oracle : CompressOracle} {b : Json} {s : String}
    (hty : b.getField "type" = some (.str "text")) (hs : b.getField "text" = some (.str s))
    (hlen : s.length > cfg.minTextLength) :
    transformBlock cfg oracle b =
      .ok (b.setField "text" (.str (compressText cfg (oracle s) s).result.text),
           (compressText cfg (oracle s) s).result.saved,
           (compressText cfg (oracle s) s).result.original) := by
  have hb : ¬ b = .null := by
    intro hb
    rw [hb] at hs
    simp [Json.getField] at hs
  simp only [transformBlock, if_neg hb, if_pos hty, hs]
  simp [hlen]

theorem transformBlock_ok_other_fields {cfg : Config} {oracle : CompressOracle} {b b' : Json}
    {s o : Int} (h : transformBlock cfg oracle b = .ok (b', s, o)) :
    ∀ k, ¬ k = "text" → b'.getField k = b.getField k := by
  intro k hk
  have hb : ¬ b = .null := transformBlock_ok_ne_null h
  by_cases hty : b.getField "type" = some (.str "text")
  · cases hgt : b.getField "text" with
    | some v =>
        cases v with
        | str t =>
            by_cases hlen : t.length > cfg.minTextLength
            · rw [transformBlock_compress hty hgt hlen] at h
              obtain ⟨h1, h2, h3⟩ := by simpa using h
              rw [← h1]
              exact getField_setField_ne _ _ hk
            · rw [transformBlock_short hgt hlen] at h
              obtain ⟨h1, h2, h3⟩ := by simpa using h
              rw [← h1]
        | null =>
            rw [transformBlock_text_not_str hb (by simp [hgt])] at h
            obtain ⟨h1, h2, h3⟩ := by simpa using h
            rw [← h1]
        | bool x =>
            rw [transformBlock_text_not_str hb (by simp [hgt])] at h
            obtain ⟨h1, h2, h3⟩ := by simpa using h
            rw [← h1]
        | num x =>
            rw [transformBlock_text_not_str hb (by simp [hgt])] at h
            obtain ⟨h1, h2, h3⟩ := by simpa using h
            rw [← h1]
        | arr x =>
            rw [transformBlock_text_not_str hb (by simp [hgt])] at h
            obtain ⟨h1, h2, h3⟩ := by simpa using h
            rw [← h1]
        | obj x =>
            rw [transformBlock_text_not_str hb (by simp [hgt])] at h
            obtain ⟨h1, h2, h3⟩ := by simpa using h
            rw [← h1]
    | none =>
        rw [transformBlock_text_not_str hb (by simp [hgt])] at h
        obtain ⟨h1, h2, h3⟩ := by simpa using h
        rw [← h1]
  · rw [transformBlock_not_text hb hty] at h
    obtain ⟨h1, h2, h3⟩ := by simpa using h
    rw [← h1]

theorem transformBlock_ok_untouched {cfg : Config} {oracle : CompressOracle} {b b' : Json}
    {s o : Int} (h : transformBlock cfg oracle b = .ok (b', s, o))
    (ht : ¬ b.getField "type" = some (.str "text")) : b' = b ∧ s = 0 ∧ o = 0 := by
  rw [transformBlock_not_text (transformBlock_ok_ne_null h) ht] at h
  simp only [Except.ok.injEq, Prod.mk.injEq] at h
  exact ⟨h.1.symm, h.2.1.symm, h.2.2.symm⟩

theorem transformMessage_ok_ne_null {cfg : Config} {oracle : CompressOracle} {m : Json}
    {r : Json × Int × Int} (h : transformMessage cfg oracle m = .ok r) : ¬ m = .null := by
  intro hm
  subst hm
  simp [transformMessage] at h

theorem transformMessage_not_role {cfg : Config} {oracle : CompressOracle} {m : Json}
    (hb : ¬ m = .null)
    (hr : ¬ (m.getField "role" = some (.str "user") ∨
             m.getField "role" = some (.str "assistant"))) :
    transformMessage cfg oracle m = .ok (m, 0, 0) := by
  simp [transformMessage, hb, hr]

theorem transformMessage_content_other {cfg : Config} {oracle : CompressOracle} {m : Json}
    (hb : ¬ m = .null) (hcs : ∀ s : String, ¬ m.getField "content" = some (.str s))
    (hca : ∀ l : List Json, ¬ m.getField "content" = some (.arr l)) :
    transformMessage cfg oracle m = .ok (m, 0, 0) := by
  simp only [transformMessage, if_neg hb]
  split <;> rfl

theorem transformMessage_short {cfg : Config} {oracle : CompressOracle} {m : Json} {s : String}
    (hs : m.getField "content" = some (.str s)) (hlen : ¬ s.length > cfg.minTextLength) :
    transformMessage cfg oracle m = .ok (m, 0, 0) := by
  have hb : ¬ m = .null := by
    intro hm
    rw [hm] at hs
    simp [Json.getField] at hs
  simp only [transformMessage, if_neg hb, hs]
  simp [hlen]

theorem transformMessage_string_compress {cfg : Config} {oracle : CompressOracle} {m : Json}
    {s : String}
    (hrole : m.getField "role" = some (.str "user") ∨
             m.getField "role" = some (.str "assistant"))
    (hs : m.getField "content" = some (.str s)) (hlen : s.length > cfg.minTextLength) :
    transformMessage cfg oracle m =
      .ok (m.setField "content" (.str (compressText cfg (oracle s) s).result.text),
           (compressText cfg (oracle s) s).result.saved,
           (compressText cfg (oracle s) s).result.original) := by
  have hb : ¬ m = .null := by
    intro hm
    rw [hm] at hs
    simp [Json.getField] at hs
  simp only [transformMessage, if_neg hb, if_pos hrole, hs]
  simp [hlen]

theorem transformMessage_arr_ok {cfg : Config} {oracle : CompressOracle} {m : Json}
    {bs bs' : List Json} {s o : Int}
    (hrole : m.getField "role" = some (.str "user") ∨
             m.getField "role" = some (.str "assistant"))
    (hc : m.getField "content" = some (.arr bs))
    (ht : transformList (transformBlock cfg oracle) bs = .ok (bs', s, o)) :
    transformMessage cfg oracle m = .ok (m.setField "content" (.arr bs'), s, o) := by
  have hb : ¬ m = .null := by
    intro hm
    rw [hm] at hc
    simp [Json.getField] at hc
  simp only [transformMessage, if_neg hb, if_pos hrole, hc, ht]

theorem transformMessage_arr_err {cfg : Config} {oracle : CompressOracle} {m : Json}
    {bs : List Json} {e : Unit}
    (hrole : m.getField "role" = some (.str "user") ∨
             m.getField "role" = some (.str "assistant"))
    (hc : m.getField "content" = some (.arr bs))
    (ht : transformList (transformBlock cfg oracle) bs = .error e) :
    transformMessage cfg oracle m = .error e := by
  have hb : ¬ m = .null := by
    intro hm
    rw [hm] at hc
    simp [Json.getField] at hc
  simp only [transformMessage, if_neg hb, if_pos hrole, hc, ht]

theorem transformMessage_ok_not_role_untouched {cfg : Config} {oracle : CompressOracle}
    {m m' : Json} {s o : Int} (h : transformMessage cfg oracle m = .ok (m', s, o))
    (hr : ¬ (m.getField "role" = some (.str "user") ∨
             m.getField "role" = some (.str "assistant"))) :
    m' = m ∧ s = 0 ∧ o = 0 := by
  rw [transformMessage_not_role (transformMessage_ok_ne_null h) hr] at h
  simp only [Except.ok.injEq, Prod.mk.injEq] at h
  exact ⟨h.1.symm, h.2.1.symm, h.2.2.symm⟩

theorem transformMessage_ok_arr {cfg : Config} {oracle : CompressOracle} {m m' : Json}
    {s o : Int} {bs : List Json} (h : transformMessage cfg oracle m = .ok (m', s, o))
    (hc : m.getField "content" = some (.arr bs)) :
    (m' = m ∧ s = 0 ∧ o = 0) ∨
    ∃ bs', transformList (transformBlock cfg oracle) bs = .ok (bs', s, o) ∧
      m' = m.setField "content" (.arr bs') := by
  by_cases hrole : m.getField "role" = some (.str "user") ∨
      m.getField "role" = some (.str "assistant")
  · cases ht : transformList (transformBlock cfg oracle) bs with
    | error e =>
        rw [transformMessage_arr_err hrole hc ht] at h
        exact Except.noConfusion h
    | ok r =>
        obtain ⟨bs', s1, o1⟩ := r
        rw [transformMessage_arr_ok hrole hc ht] at h
        simp only [Except.ok.injEq, Prod.mk.injEq] at h
        refine Or.inr ⟨bs', ?_, h.1.symm⟩
        rw [h.2.1, h.2.2]
  · exact Or.inl (transformMessage_ok_not_role_untouched h hrole)

theorem transformMessage_ok_other_fields {cfg : Config} {oracle : CompressOracle}
    {m m' : Json} {s o : Int} (h : transformMessage cfg oracle m = .ok (m', s, o)) :
    ∀ k, ¬ k = "content" → m'.getField k = m.getField k := by
  intro k hk
  have hb : ¬ m = .null := transformMessage_ok_ne_null h
  by_cases hrole : m.getField "role" = some (.str "user") ∨
      m.getField "role" = some (.str "assistant")
  · cases hgc : m.getField "content" with
    | some v =>
        cases v with
        | str t =>
            by_cases hlen : t.length > cfg.minTextLength
            · rw [transformMessage_string_compress hrole hgc hlen] at h
              simp only [Except.ok.injEq, Prod.mk.injEq] at h
              rw [← h.1]
              exact getField_setField_ne _ _ hk
            · rw [transformMessage_short hgc hlen] at h
              simp only [Except.ok.injEq, Prod.mk.injEq] at h
              rw [← h.1]
        | arr bs =>
            cases ht : transformList (transformBlock cfg oracle) bs with
            | error e =>
                rw [transformMessage_arr_err hrole hgc ht] at h
                exact Except.noConfusion h
            | ok r =>
                obtain ⟨bs', s1, o1⟩ := r
                rw [transformMessage_arr_ok hrole hgc ht] at h
                simp only [Except.ok.injEq, Prod.mk.injEq] at h
                rw [← h.1]
                exact getField_setField_ne _ _ hk
        | null =>
            rw [transformMessage_content_other hb (by simp [hgc]) (by simp [hgc])] at h
            simp only [Except.ok.injEq, Prod.mk.injEq] at h
            rw [← h.1]
        | bool x =>
            rw [transformMessage_content_other hb (by simp [hgc]) (by simp [hgc])] at h
            simp only [Except.ok.injEq, Prod.mk.injEq] at h
            rw [← h.1]
        | num x =>
            rw [transformMessage_content_other hb (by simp [hgc]) (by simp [hgc])] at h
            simp only [Except.ok.injEq, Prod.mk.injEq] at h
            rw [← h.1]
        | obj x =>
            rw [transformMessage_content_other hb (by simp [hgc]) (by simp [hgc])] at h
            simp only [Except.ok.injEq, Prod.mk.injEq] at h
            rw [← h.1]
    | none =>
        rw [transformMessage_content_other hb (by simp [hgc]) (by simp [hgc])] at h
        simp only [Except.ok.injEq, Prod.mk.injEq] at h
        rw [← h.1]
  · rw [(transformMessage_ok_not_role_untouched h hrole).1]

set_option maxRecDepth 100000 in
/-- C1, counterexample to the claim as stated: the code performs no sign
check on the reported token counts, so a parsed response with
`output_tokens = -1` and `original_input_tokens = 0` is accepted (since
`-1 < 0`) and yields `tokensSaved = 1 > 0 = originalTokenCount`. -/
theorem claim_C1_counterexample :
    ¬ ((compressText cfgD (.success respNeg) text500).result.saved ≤
       (compressText cfgD (.success respNeg) text500).result.original) := by
  decide

/-- C1 (amended): `tokensSaved ≤ originalTokenCount` holds whenever the
service reports a non-negative output-token count (the code accepts any
response with `output_tokens < original_input_tokens`, even a negative
`output_tokens`, in which case `tokensSaved` exceeds `originalTokenCount`);
when compression is skipped (no credential, empty text, or length below the
threshold) the result is `tokensSaved = originalTokenCount = 0` with the
input text returned exactly and no network call made; when the call fails
(timeout, transport error, unparseable response) the result is likewise
zero totals and the exact input text. -/
theorem claim_C1 (cfg : Config) (net : CompressOutcome) (text : String) :
    ((∀ r a, net = .success r → r.output_tokens = some a → 0 ≤ a) →
      (compressText cfg net text).result.saved ≤
        (compressText cfg net text).result.original)
    ∧ (jsTruthyStr cfg.ttcKey = false ∨ text = "" ∨ text.length < cfg.minTextLength →
        compressText cfg net text = ⟨⟨text, 0, 0⟩, false⟩)
    ∧ (net = .failure → (compressText cfg net text).result = ⟨text, 0, 0⟩) := by
  refine ⟨?_, ?_, ?_⟩
  · intro hnn
    by_cases hskip : jsTruthyStr cfg.ttcKey = false ∨ text = "" ∨
        text.length < cfg.minTextLength
    · simp only [compressText, if_pos hskip]
      exact le_refl 0
    · cases net with
      | failure =>
          simp only [compressText, if_neg hskip]
          exact le_refl 0
      | success r =>
          obtain ⟨out, ot, oit⟩ := r
          cases out with
          | none =>
              simp only [compressText, if_neg hskip]
              exact le_refl 0
          | some o =>
              cases ot with
              | none =>
                  simp only [compressText, if_neg hskip]
                  exact le_refl 0
              | some a =>
                  cases oit with
                  | none =>
                      simp only [compressText, if_neg hskip]
                      exact le_refl 0
                  | some b =>
                      have ha : 0 ≤ a := hnn ⟨some o, some a, some b⟩ a rfl rfl
                      simp only [compressText, if_neg hskip]
                      by_cases hacc : ¬ o = "" ∧ a < b
                      · simp only [if_pos hacc]
                        omega
                      · simp only [if_neg hacc]
                        exact le_refl 0
  · intro hskip
    simp only [compressText, if_pos hskip]
  · intro hnet
    subst hnet
    by_cases hskip : jsTruthyStr cfg.ttcKey = false ∨ text = "" ∨
        text.length < cfg.minTextLength
    · simp only [compressText, if_pos hskip]
    · simp only [compressText, if_neg hskip]

/-- Witness for C1: the accepted Scenario B response satisfies the
invariant; the no-credential configuration skips with no network call; a
failed call returns the fallback. -/
theorem claim_C1_witness :
    ((compressText cfgD (.success respB) text500).result.saved ≤
      (compressText cfgD (.success respB) text500).result.original)
    ∧ compressText cfgNoKey (.success respB) text500 = ⟨⟨text500, 0, 0⟩, false⟩
    ∧ (compressText cfgD .failure text500).result = ⟨text500, 0, 0⟩ := by
  refine ⟨(claim_C1 cfgD (.success respB) text500).1 ?_,
          (claim_C1 cfgNoKey (.success respB) text500).2.1 ?_,
          (claim_C1 cfgD .failure text500).2.2 rfl⟩
  · intro r a hr ha
    cases hr
    simp only [respB, Option.some.injEq] at ha
    omega
  · exact Or.inl (by simp [cfgNoKey, jsTruthyStr])


set_option maxRecDepth 100000 in
/-- C2: when the call is made (credential present, text nonempty and not
below the threshold) and the response parses with a truthy `output` and
both token counts present, the compressed output is accepted exactly when
`output_tokens < original_input_tokens`, with result text the response
output and `saved = original_input_tokens - output_tokens`; otherwise the
fallback is returned even though the call succeeded.  Concretely (Scenario
B), a single user message holding a 500-character string with a response of
`output_tokens` 80 and `original_input_tokens` 200 yields
`totalSaved = 120`, `totalOriginal = 200`, and the re-encoded body carries
the replaced message content. -/
theorem claim_C2 (cfg : Config) (net : CompressOutcome) (text : String)
    (r : CompressResponse) (o : String) (a b : Int)
    (hkey : jsTruthyStr cfg.ttcKey = true) (hne : ¬ text = "")
    (hlen : ¬ text.length < cfg.minTextLength)
    (hr : net = .success r) (ho : r.output = some o) (hoe : ¬ o = "")
    (ha : r.output_tokens = some a) (hb : r.original_input_tokens = some b) :
    (compressText cfg net text).result =
      (if a < b then ⟨o, b - a, b⟩ else ⟨text, 0, 0⟩)
    ∧ processPayload cfgD oracleB "RAW" (some payloadB) =
      ⟨(payloadB.setField "messages"
          (.arr [msgB.setField "content" (.str "zip")])).stringify, 120, 200⟩ := by
  constructor
  · subst hr
    have hskip : ¬ (jsTruthyStr cfg.ttcKey = false ∨ text = "" ∨
        text.length < cfg.minTextLength) := by
      simp [hkey, hne, hlen]
    simp only [compressText, if_neg hskip, ho, ha, hb]
    by_cases hab : a < b
    · rw [if_pos ⟨hoe, hab⟩, if_pos hab]
    · rw [if_neg (fun hc => hab hc.2), if_neg hab]
  · decide

set_option maxRecDepth 100000 in
/-- Witness for C2 at the Scenario B input: the response (80, 200) is
accepted and yields saved 120 of 200. -/
theorem claim_C2_witness :
    (compressText cfgD (.success respB) text500).result =
      (if (80 : Int) < 200 then ⟨"zip", 120, 200⟩ else ⟨text500, 0, 0⟩) :=
  (claim_C2 cfgD (.success respB) text500 respB "zip" 80 200
    (by decide) (by decide) (by decide) rfl rfl (by decide) rfl rfl).1

/-- C3: the transformer returns the original raw body with zero totals
whenever `JSON.parse` fails, whenever the parsed payload's `messages`
field is absent or falsy (no message sequence), whenever iterating the
message array throws (a `null` entry), and whenever `messages` is a truthy
value that is neither a string nor an array (iterating it throws) — a
malformed payload is passed through, never rejected. -/
theorem claim_C3 (cfg : Config) (oracle : CompressOracle) (bodyStr : String)
    (parsed : Option Json) :
    (parsed = none → processPayload cfg oracle bodyStr parsed = ⟨bodyStr, 0, 0⟩)
    ∧ (∀ j, parsed = some j →
        (j.getField "messages" = none ∨ j.getField "messages" = some .null ∨
         j.getField "messages" = some (.bool false) ∨
         j.getField "messages" = some (.num 0) ∨
         j.getField "messages" = some (.str "")) →
        processPayload cfg oracle bodyStr parsed = ⟨bodyStr, 0, 0⟩)
    ∧ (∀ j ms e, parsed = some j → j.getField "messages" = some (.arr ms) →
        transformList (transformMessage cfg oracle) ms = .error e →
        processPayload cfg oracle bodyStr parsed = ⟨bodyStr, 0, 0⟩)
    ∧ (∀ j v, parsed = some j → j.getField "messages" = some v →
        (∀ s : String, ¬ v = .str s) → (∀ l : List Json, ¬ v = .arr l) →
        processPayload cfg oracle bodyStr parsed = ⟨bodyStr, 0, 0⟩) := by
  refine ⟨?_, ?_, ?_, ?_⟩
  · intro h
    subst h
    rfl
  · intro j hp hcase
    subst hp
    rcases hcase with h | h | h | h | h <;> simp [processPayload, h]
  · intro j ms e hp hmsgs herr
    subst hp
    simp [processPayload, hmsgs, herr]
  · intro j v hp hmsgs hs hl
    subst hp
    cases v with
    | null => simp [processPayload, hmsgs]
    | bool x => simp [processPayload, hmsgs]
    | num x => simp [processPayload, hmsgs]
    | obj x => simp [processPayload, hmsgs]
    | str x => exact absurd rfl (hs x)
    | arr x => exact absurd rfl (hl x)

/-- Witness for C3: a body that fails to parse, and a payload whose message
list holds a `null` entry, both pass through untouched. -/
theorem claim_C3_witness :
    processPayload cfgD oracleB "garbage" none = ⟨"garbage", 0, 0⟩
    ∧ processPayload cfgD oracleB "RAWNULL" (some payloadNull) = ⟨"RAWNULL", 0, 0⟩ := by
  constructor
  · exact (claim_C3 cfgD oracleB "garbage" none).1 rfl
  · exact (claim_C3 cfgD oracleB "RAWNULL" (some payloadNull)).2.2.1
      payloadNull [Json.null, msgB] () rfl rfl rfl

/-- C5: the transformer runs exactly on requests whose method is POST,
whose path contains the message-endpoint pattern, and whose body is
present (a request with no chunks, or an empty chunk list, carries no
body); in that case the forwarded body is the transformer's output, the
totals are added to the lifetime counters, and the compressed counter is
incremented exactly when `totalSaved > 0`.  Every other request forwards
its body exactly as received with only the request counter changed. -/
theorem claim_C5 (cfg : Config) (oracle : CompressOracle) (parse : String → Option Json)
    (st : Stats) (req : Request) :
    (∀ s, req.body = some s → ¬ s = "" → isMessagesEndpoint req = true →
      handleRequest cfg oracle parse st req =
        ({ requests := st.requests + 1,
           compressed := st.compressed +
             (if (processPayload cfg oracle s (parse s)).totalSaved > 0 then 1 else 0),
           tokensSaved := st.tokensSaved + (processPayload cfg oracle s (parse s)).totalSaved,
           originalTokens :=
             st.originalTokens + (processPayload cfg oracle s (parse s)).totalOriginal },
         ⟨req.method, req.url, req.headers, some (processPayload cfg oracle s (parse s)).body⟩))
    ∧ (isMessagesEndpoint req = false ∨ req.body = none ∨ req.body = some "" →
      handleRequest cfg oracle parse st req =
        ({ st with requests := st.requests + 1 },
         ⟨req.method, req.url, req.headers, req.body⟩)) := by
  constructor
  · intro s hb hne helig
    simp [handleRequest, hb, helig, hne]
  · intro hcase
    rcases hcase with h | h | h
    · cases hb : req.body with
      | none => simp [handleRequest, hb]
      | some s => simp [handleRequest, hb, h]
    · simp [handleRequest, h]
    · simp [handleRequest, h]

/-- Witness for C5: the concrete eligible request `reqB` is transformed and
its totals accumulated. -/
theorem claim_C5_witness :
    handleRequest cfgD oracleB parseB stW reqB =
      ({ requests := stW.requests + 1,
         compressed := stW.compressed +
           (if (processPayload cfgD oracleB "RAW" (parseB "RAW")).totalSaved > 0 then 1 else 0),
         tokensSaved := stW.tokensSaved + (processPayload cfgD oracleB "RAW" (parseB "RAW")).totalSaved,
         originalTokens :=
           stW.originalTokens + (processPayload cfgD oracleB "RAW" (parseB "RAW")).totalOriginal },
       ⟨reqB.method, reqB.url, reqB.headers,
        some (processPayload cfgD oracleB "RAW" (parseB "RAW")).body⟩) :=
  (claim_C5 cfgD oracleB parseB stW reqB).1 "RAW" rfl (by decide) (by decide)

/-- C6: the lifetime request counter increases by exactly one on every
inbound request, before and regardless of eligibility, transformation
outcome, or forwarding outcome. -/
theorem claim_C6 (cfg : Config) (oracle : CompressOracle) (parse : String → Option Json)
    (st : Stats) (req : Request) :
    (handleRequest cfg oracle parse st req).1.requests = st.requests + 1 := by
  cases hb : req.body with
  | none => simp [handleRequest, hb]
  | some s =>
      by_cases h : isMessagesEndpoint req && !(s == "") = true <;>
        simp [handleRequest, hb] <;> split <;> rfl

/-- C7: a transport-level failure of the outbound upstream connection makes
the caller receive the fixed gateway-failure response: status 502 with the
diagnostic JSON body naming the error; the embedding is total, so no error
path leaves the inbound connection without a response. -/
theorem claim_C7 (cfg : Config) (method urlPath : String)
    (headers : List (String × String)) (body : Option String) (up : UpstreamOutcome)
    (m : String) (h : up = .err m) :
    (forwardToAnthropic cfg method urlPath headers body up).2 =
      ⟨502, [], (Json.obj [("error", .str "Bad Gateway"), ("message", .str m)]).stringify⟩ := by
  subst h
  rfl

/-- Witness for C7 at a concrete refused connection. -/
theorem claim_C7_witness :
    (forwardToAnthropic cfgD "POST" "/v1/messages" [] (some "RAW") (.err "ECONNREFUSED")).2 =
      ⟨502, [],
       (Json.obj [("error", .str "Bad Gateway"),
                  ("message", .str "ECONNREFUSED")]).stringify⟩ :=
  claim_C7 cfgD "POST" "/v1/messages" [] (some "RAW") (.err "ECONNREFUSED") "ECONNREFUSED" rfl

/-- C8: the outbound header set equals the inbound one except that the
hop-by-hop headers `connection`, `keep-alive` and `transfer-encoding` are
removed, `host` is rewritten to the upstream hostname, and
`content-length` is set to the byte length of the forwarded body when one
is present (an empty body, like a missing one, is falsy and sets no
length, letting any inbound `content-length` pass through, as every other
header does). -/
theorem claim_C8 (cfg : Config) (method urlPath : String)
    (headers : List (String × String)) (body : Option String) (up : UpstreamOutcome)
    (k : String) :
    getHeader (forwardToAnthropic cfg method urlPath headers body up).1.headers k =
      (if k = "connection" ∨ k = "keep-alive" ∨ k = "transfer-encoding" then none
       else if k = "host" then some cfg.anthropicHost
       else if k = "content-length" ∧ jsTruthyStr body = true then
         some (toString ((body.getD "").utf8ByteSize))
       else getHeader headers k) := by
  have houtb : (forwardToAnthropic cfg method urlPath headers body up).1.headers =
      buildForwardHeaders cfg headers body := by
    cases up <;> rfl
  rw [houtb]
  unfold buildForwardHeaders
  cases body with
  | none =>
      rw [getHeader_delHeader, getHeader_delHeader, getHeader_delHeader, getHeader_setHeader]
      by_cases h1 : k = "connection" <;> by_cases h2 : k = "keep-alive" <;>
        by_cases h3 : k = "transfer-encoding" <;> by_cases h4 : k = "host" <;>
        simp_all [jsTruthyStr]
  | some b =>
      by_cases hb : b = ""
      · subst hb
        simp only [if_neg (by simp : ¬ ("" : String) ≠ "")]
        rw [getHeader_delHeader, getHeader_delHeader, getHeader_delHeader, getHeader_setHeader]
        by_cases h1 : k = "connection" <;> by_cases h2 : k = "keep-alive" <;>
          by_cases h3 : k = "transfer-encoding" <;> by_cases h4 : k = "host" <;>
          simp_all [jsTruthyStr]
      · simp only [if_pos (by simpa using hb : (b : String) ≠ "")]
        rw [getHeader_delHeader, getHeader_delHeader, getHeader_delHeader,
          getHeader_setHeader, getHeader_setHeader]
        by_cases h1 : k = "connection" <;> by_cases h2 : k = "keep-alive" <;>
          by_cases h3 : k = "transfer-encoding" <;> by_cases h4 : k = "host" <;>
          by_cases h5 : k = "content-length" <;>
          simp_all [jsTruthyStr]

/-- C9: a message whose content is a string no longer than the minimum
threshold, and a block whose text is a string no longer than the minimum
threshold, are returned exactly unchanged with zero totals by the
transformer — this holds for any pass, so in particular a second
transformation of an already-compressed payload leaves every text that the
first pass brought to or below the threshold untouched; the third part
lifts this to the message list of such a second pass. -/
theorem claim_C9 (cfg : Config) (oracle : CompressOracle) :
    (∀ m : Json, ∀ t : String, m.getField "content" = some (.str t) →
       t.length ≤ cfg.minTextLength → transformMessage cfg oracle m = .ok (m, 0, 0))
    ∧ (∀ b : Json, ∀ t : String, b.getField "text" = some (.str t) →
       t.length ≤ cfg.minTextLength → transformBlock cfg oracle b = .ok (b, 0, 0))
    ∧ (∀ ms ms2 : List Json, ∀ s2 o2 : Int,
       transformList (transformMessage cfg oracle) ms = .ok (ms2, s2, o2) →
       ∀ i : Nat, ∀ m : Json, ∀ t : String, ms.get? i = some m →
         m.getField "content" = some (.str t) → t.length ≤ cfg.minTextLength →
         ms2.get? i = some m) := by
  refine ⟨?_, ?_, ?_⟩
  · intro m t hc hlen
    exact transformMessage_short hc (by omega)
  · intro b t hc hlen
    exact transformBlock_short hc (by omega)
  · intro ms ms2 s2 o2 hok i m t hm hc hlen
    obtain ⟨m', si, oi, hget, hfm⟩ := transformList_ok_get hok i m hm
    rw [transformMessage_short hc (by omega)] at hfm
    simp only [Except.ok.injEq, Prod.mk.injEq] at hfm
    rw [hget, hfm.1]

/-- Witness for C9: the already-short message `msgShort` and a short text
block pass through a (second) transformation unchanged. -/
theorem claim_C9_witness :
    transformMessage cfgD oracleB msgShort = .ok (msgShort, 0, 0)
    ∧ transformBlock cfgD oracleB (.obj [("type", .str "text"), ("text", .str "hi")]) =
        .ok (.obj [("type", .str "text"), ("text", .str "hi")], 0, 0) := by
  constructor
  · exact (claim_C9 cfgD oracleB).1 msgShort "zip" (by decide) (by decide)
  · exact (claim_C9 cfgD oracleB).2.1 (.obj [("type", .str "text"), ("text", .str "hi")])
      "hi" (by decide) (by decide)

/-- C10: within a decoded payload the transformer leaves exactly unchanged,
with zero totals, every message whose role is not exactly `"user"` or
`"assistant"`, every message whose content is neither a string nor an
array, every string content not strictly longer than the threshold, and
every array block whose type is not `"text"` or whose text is absent or
empty; and no internal exception escapes: an iteration error makes
`processPayload` return the original body unchanged, so in every outcome
the listed items come through untouched and no error is raised to the
caller. -/
theorem claim_C10 (cfg : Config) (oracle : CompressOracle) :
    (∀ m m' : Json, ∀ s o : Int, transformMessage cfg oracle m = .ok (m', s, o) →
      ¬ (m.getField "role" = some (.str "user") ∨
         m.getField "role" = some (.str "assistant")) →
      m' = m ∧ s = 0 ∧ o = 0)
    ∧ (∀ m m' : Json, ∀ s o : Int, transformMessage cfg oracle m = .ok (m', s, o) →
        (∀ t : String, ¬ m.getField "content" = some (.str t)) →
        (∀ l : List Json, ¬ m.getField "content" = some (.arr l)) →
        m' = m ∧ s = 0 ∧ o = 0)
    ∧ (∀ m m' : Json, ∀ s o : Int, ∀ t : String,
        transformMessage cfg oracle m = .ok (m', s, o) →
        m.getField "content" = some (.str t) → ¬ t.length > cfg.minTextLength →
        m' = m ∧ s = 0 ∧ o = 0)
    ∧ (∀ b b' : Json, ∀ s o : Int, transformBlock cfg oracle b = .ok (b', s, o) →
        (¬ b.getField "type" = some (.str "text") ∨ b.getField "text" = none ∨
         b.getField "text" = some (.str "")) →
        b' = b ∧ s = 0 ∧ o = 0)
    ∧ (∀ bodyStr : String, ∀ j : Json, ∀ ms : List Json, ∀ e : Unit,
        j.getField "messages" = some (.arr ms) →
        transformList (transformMessage cfg oracle) ms = .error e →
        processPayload cfg oracle bodyStr (some j) = ⟨bodyStr, 0, 0⟩) := by
  refine ⟨?_, ?_, ?_, ?_, ?_⟩
  · intro m m' s o h hrole
    exact transformMessage_ok_not_role_untouched h hrole
  · intro m m' s o h hcs hca
    rw [transformMessage_content_other (transformMessage_ok_ne_null h) hcs hca] at h
    simp only [Except.ok.injEq, Prod.mk.injEq] at h
    exact ⟨h.1.symm, h.2.1.symm, h.2.2.symm⟩
  · intro m m' s o t h hc hlen
    rw [transformMessage_short hc hlen] at h
    simp only [Except.ok.injEq, Prod.mk.injEq] at h
    exact ⟨h.1.symm, h.2.1.symm, h.2.2.symm⟩
  · intro b b' s o h hcase
    rcases hcase with ht | ht | ht
    · exact transformBlock_ok_untouched h ht
    · rw [transformBlock_text_not_str (transformBlock_ok_ne_null h) (by simp [ht])] at h
      simp only [Except.ok.injEq, Prod.mk.injEq] at h
      exact ⟨h.1.symm, h.2.1.symm, h.2.2.symm⟩
    · rw [transformBlock_short ht (by simp)] at h
      simp only [Except.ok.injEq, Prod.mk.injEq] at h
      exact ⟨h.1.symm, h.2.1.symm, h.2.2.symm⟩
  · intro bodyStr j ms e hmsgs herr
    simp [processPayload, hmsgs, herr]

set_option maxRecDepth 100000 in
/-- Witness for C10: a system-role message and a tool_use block are
returned exactly unchanged. -/
theorem claim_C10_witness :
    transformMessage cfgD oracleB msgSystem = .ok (msgSystem, 0, 0)
    ∧ (msgSystem = msgSystem ∧ (0 : Int) = 0 ∧ (0 : Int) = 0)
    ∧ transformBlock cfgD oracleB blockTool = .ok (blockTool, 0, 0)
    ∧ (blockTool = blockTool ∧ (0 : Int) = 0 ∧ (0 : Int) = 0) := by
  have h1 : transformMessage cfgD oracleB msgSystem = .ok (msgSystem, 0, 0) := rfl
  have h2 : transformBlock cfgD oracleB blockTool = .ok (blockTool, 0, 0) := rfl
  exact ⟨h1, (claim_C10 cfgD oracleB).1 msgSystem msgSystem 0 0 h1 (by decide), h2,
         (claim_C10 cfgD oracleB).2.2.2.1 blockTool blockTool 0 0 h2 (by decide)⟩

/-- C4: when the payload decodes to an object with a message array and the
traversal completes, the re-encoded output is the stringification of the
payload tree with only the message array replaced; every top-level field
other than `messages` survives exactly, the message count is preserved,
every message whose role is unrecognized survives exactly, every message
field other than `content` survives exactly, and inside array content both
every block of non-`"text"` type and every block field other than `text`
survive exactly — nothing the transformer does not touch is lost or
altered by re-encoding. -/
theorem claim_C4 (cfg : Config) (oracle : CompressOracle) (bodyStr : String) (j : Json)
    (ms ms' : List Json) (s o : Int)
    (hmsgs : j.getField "messages" = some (.arr ms))
    (hok : transformList (transformMessage cfg oracle) ms = .ok (ms', s, o)) :
    processPayload cfg oracle bodyStr (some j) =
      ⟨(j.setField "messages" (.arr ms')).stringify, s, o⟩
    ∧ (∀ k, ¬ k = "messages" →
        (j.setField "messages" (.arr ms')).getField k = j.getField k)
    ∧ ms'.length = ms.length
    ∧ (∀ i : Nat, ∀ m m' : Json, ms.get? i = some m → ms'.get? i = some m' →
        (¬ (m.getField "role" = some (.str "user") ∨
            m.getField "role" = some (.str "assistant")) → m' = m)
        ∧ (∀ k, ¬ k = "content" → m'.getField k = m.getField k)
        ∧ (∀ bs bs' : List Json, m.getField "content" = some (.arr bs) →
            m'.getField "content" = some (.arr bs') →
            bs'.length = bs.length
            ∧ ∀ bi : Nat, ∀ b b' : Json, bs.get? bi = some b → bs'.get? bi = some b' →
                (¬ b.getField "type" = some (.str "text") → b' = b)
                ∧ (∀ k, ¬ k = "text" → b'.getField k = b.getField k))) := by
  refine ⟨?_, ?_, transformList_ok_length hok, ?_⟩
  · simp [processPayload, hmsgs, hok]
  · intro k hk
    exact getField_setField_ne _ _ hk
  · intro i m m' hm hm'
    obtain ⟨m'', si, oi, hget, hfm⟩ := transformList_ok_get hok i m hm
    have hmm : m'' = m' := by
      rw [hget] at hm'
      exact Option.some.inj hm'
    subst hmm
    refine ⟨fun hrole => (transformMessage_ok_not_role_untouched hfm hrole).1,
            transformMessage_ok_other_fields hfm, ?_⟩
    intro bs bs' hcb hcb'
    rcases transformMessage_ok_arr hfm hcb with ⟨heq, _, _⟩ | ⟨bs2, htl, hmeq⟩
    · subst heq
      rw [hcb] at hcb'
      have hbs : bs = bs' := by
        simpa using Option.some.inj hcb'
      subst hbs
      refine ⟨rfl, ?_⟩
      intro bi b b' hb hb'
      rw [hb] at hb'
      have : b = b' := Option.some.inj hb'
      subst this
      exact ⟨fun _ => rfl, fun k hk => rfl⟩
    · subst hmeq
      have hcb2 : (m.setField "content" (Json.arr bs2)).getField "content" =
          some (.arr bs2) := getField_setField_self _ hcb
      rw [hcb2] at hcb'
      have hbs : bs2 = bs' := by
        simpa using Option.some.inj hcb'
      subst hbs
      refine ⟨transformList_ok_length htl, ?_⟩
      intro bi b b' hb hb'
      obtain ⟨b'', sbi, obi, hbget, hbf⟩ := transformList_ok_get htl bi b hb
      have hbb : b'' = b' := by
        rw [hbget] at hb'
        exact Option.some.inj hb'
      subst hbb
      exact ⟨fun hty => (transformBlock_ok_untouched hbf hty).1,
             transformBlock_ok_other_fields hbf⟩

set_option maxRecDepth 100000 in
/-- Witness for C4: the concrete payload passes through with its unknown
fields intact. -/
theorem claim_C4_witness :
    processPayload cfgD oracleB "RAW4" (some payloadC4) =
      ⟨(payloadC4.setField "messages" (.arr [msgSystem, msgBlocks])).stringify, 0, 0⟩
    ∧ (payloadC4.setField "messages" (.arr [msgSystem, msgBlocks])).getField "model" =
        payloadC4.getField "model" := by
  have h := claim_C4 cfgD oracleB "RAW4" payloadC4 [msgSystem, msgBlocks]
      [msgSystem, msgBlocks] 0 0 rfl rfl
  exact ⟨h.1, h.2.1 "model" (by decide)⟩
